import Mathlib

/-!
Result-set layer of the MySQL driver (`rows.go`)

A shallow embedding of `rows.go`: the `mysqlRows` result set, its cursor adapter
`mysqlRowsI`, and the three operations `Columns`, `Next` and `close`/`Close`.

Pointer receivers become explicit state passing: a method that mutates `*mysqlRows`
takes the field values of the instance and returns the new ones.  A pointer that may be
nil is an `Option`.  The connection is shared with the rest of the driver, so it lives in
a store inside `World`, addressed by `ConnPtr`; so do the backing arrays of the column
slices, which several result sets may share.

The functions `rows.go` calls but does not define (`readUntilEOF`, `readRow`,
`readBinaryRow`, `putFields`, `putMysqlRows`) are parameters: an `Env` gives their
behaviour, and every call is appended to `World.trace`.
-/

namespace mysql

/-! ## Data model -/

/-- Non-nil Go `error` values this layer distinguishes: the two sentinels it compares
against or returns, and any other error coming from the transport or a decoder. -/
inductive Err where
  | invalidConn
  | eof
  | other (code : Nat)
  deriving DecidableEq, Repr

/-- Go `error`: `none` is `nil`. -/
abbrev error := Option Err

/-- The sentinel `errInvalidConn`. -/
def errInvalidConn : error := some Err.invalidConn

/-- The sentinel `io.EOF`. -/
def io.EOF : error := some Err.eof

/-- A `driver.Value` held in a destination buffer. -/
inductive Value where
  | null
  | int (i : Int)
  | bytes (b : List Nat)
  deriving DecidableEq, Repr

/-- Column description, `type mysqlField struct` (lines 16-20). -/
structure mysqlField where
  name : String
  fieldType : Nat
  flags : Nat
  deriving DecidableEq, Repr

/-- Address of a `mysqlConn`. -/
abbrev ConnPtr := Nat

/-- Address of the backing array of a `[]mysqlField` slice. -/
abbrev FieldsPtr := Nat

/-- Modelled from the spec: the connection type `mysqlConn` is declared outside `rows.go`.
Only its `netConn` field is read here (`none` is a nil transport); `unread` stands for
the packets still on the stream, which only the transport functions consume. -/
structure mysqlConn where
  netConn : Option Nat
  unread : List Nat
  deriving DecidableEq, Repr

/-- The result set, `type mysqlRows struct` (lines 29-34).  `mc` is a nil-able pointer to the
connection; `columns` is a slice, `none` for the nil slice and otherwise the backing
array it views. -/
structure mysqlRows where
  mc : Option ConnPtr
  columns : Option FieldsPtr
  binary : Bool
  eof : Bool
  deriving DecidableEq, Repr

/-- The cursor adapter, `type mysqlRowsI struct` (lines 39-41): a nil-able pointer to the
wrapped result set. -/
structure mysqlRowsI where
  mysqlRows : Option mysqlRows
  deriving DecidableEq, Repr

/-- A call of a function that `rows.go` uses but does not define, with its arguments. -/
inductive Event where
  | readUntilEOF (mc : ConnPtr)
  | readRow (dest : List Value)
  | readBinaryRow (dest : List Value)
  | putFields (columns : Option FieldsPtr)
  | putMysqlRows (rows : mysqlRows)
  deriving DecidableEq, Repr

/-- Everything outside a `mysqlRows` instance that its operations read or change: the
connections, the column backing arrays, and the calls made so far. -/
structure World where
  conns : ConnPtr → mysqlConn
  fields : FieldsPtr → List mysqlField
  trace : List Event

/-- Behaviour of the functions defined outside `rows.go`.  The transport functions act on
the connection store (a decoder also reads the instance and the column metadata and
writes the destination buffer); `putFields` acts on the column backing arrays. -/
structure Env where
  onReadUntilEOF : ConnPtr → (ConnPtr → mysqlConn) → error × (ConnPtr → mysqlConn)
  onReadRow : mysqlRows → (FieldsPtr → List mysqlField) → List Value →
    (ConnPtr → mysqlConn) → error × List Value × (ConnPtr → mysqlConn)
  onReadBinaryRow : mysqlRows → (FieldsPtr → List mysqlField) → List Value →
    (ConnPtr → mysqlConn) → error × List Value × (ConnPtr → mysqlConn)
  onPutFields : Option FieldsPtr → (FieldsPtr → List mysqlField) →
    (FieldsPtr → List mysqlField)

/-! ## Calls of the external functions -/

/-- The call `mc.readUntilEOF()`. -/
def readUntilEOF (env : Env) (mc : ConnPtr) (w : World) : error × World :=
  let r := env.onReadUntilEOF mc w.conns
  (r.1, { w with conns := r.2, trace := w.trace ++ [Event.readUntilEOF mc] })

/-- The call `rows.readRow(dest)`. -/
def readRow (env : Env) (rows : mysqlRows) (dest : List Value) (w : World) :
    error × List Value × World :=
  let r := env.onReadRow rows w.fields dest w.conns
  (r.1, r.2.1, { w with conns := r.2.2, trace := w.trace ++ [Event.readRow dest] })

/-- The call `rows.readBinaryRow(dest)`. -/
def readBinaryRow (env : Env) (rows : mysqlRows) (dest : List Value) (w : World) :
    error × List Value × World :=
  let r := env.onReadBinaryRow rows w.fields dest w.conns
  (r.1, r.2.1, { w with conns := r.2.2, trace := w.trace ++ [Event.readBinaryRow dest] })

/-- The call `putFields(columns)`. -/
def putFields (env : Env) (columns : Option FieldsPtr) (w : World) : World :=
  { w with fields := env.onPutFields columns w.fields,
           trace := w.trace ++ [Event.putFields columns] }

/-- The call `putMysqlRows(rows)`: the instance is handed to the result-set pool; the
event records the field values it has at that moment. -/
def putMysqlRows (rows : mysqlRows) (w : World) : World :=
  { w with trace := w.trace ++ [Event.putMysqlRows rows] }

/-! ## Operations of `rows.go` -/

/-- The elements a column slice views: none for the nil slice. -/
def sliceElems (w : World) (columns : Option FieldsPtr) : List mysqlField :=
  match columns with
  | none => []
  | some p => w.fields p

/-- The test `rows.mc == nil || rows.mc.netConn == nil` (lines 68 and 98). -/
def connGone (w : World) (mc : Option ConnPtr) : Bool :=
  match mc with
  | none => true
  | some c => (w.conns c).netConn.isNone

/-- Result of `Columns`: a `[]string`, `none` for the nil slice. -/
abbrev StringSlice := Option (List String)

/-- Number of elements of a `[]string`; the nil slice has none. -/
def StringSlice.len (s : StringSlice) : Nat :=
  match s with
  | none => 0
  | some l => l.length

/-- The assignment `columns[i] = rows.columns[i].name` of line 49.  Either index
expression fails at run time when `i` is out of range. -/
def columnsAssign (src : List mysqlField) (cs : List String) (i : Nat) :
    Except String (List String) :=
  match src[i]? with
  | none => Except.error "index out of range"
  | some f => if i < cs.length then Except.ok (cs.set i f.name)
              else Except.error "index out of range"

/-- Source `func (rows *mysqlRows) Columns() []string` (lines 43-52).  The result is
`Except.error` when the Go code would stop with a run-time error. -/
def mysqlRows.Columns (rows : Option mysqlRows) (w : World) : Except String StringSlice :=
  match rows with
  | none => Except.ok none
  | some r =>
    let src := sliceElems w r.columns
    let columns := List.replicate src.length ""
    ((List.range columns.length).foldlM (columnsAssign src) columns).map some

/-- Outcome of `close`: the returned error, the instance afterwards, the world afterwards. -/
structure CloseResult where
  err : error
  rows : mysqlRows
  world : World

/-- Lines 79-86 of `close`: detach the connection, return text columns to the pool, clear
`columns`, and return the pending error. -/
def mysqlRows.release (env : Env) (err : error) (rows : mysqlRows) (w : World) :
    CloseResult :=
  let rows1 := { rows with mc := none }
  let w1 := if !rows1.binary then putFields env rows1.columns w else w
  let rows2 := { rows1 with columns := none }
  ⟨err, rows2, w1⟩

/-- Source `func (rows *mysqlRows) close() (err error)` (lines 65-87). -/
def mysqlRows.close (env : Env) (rows : mysqlRows) (w : World) : CloseResult :=
  if !rows.eof then
    match rows.mc with
    | none => ⟨errInvalidConn, rows, w⟩
    | some mc =>
      if (w.conns mc).netConn.isNone then ⟨errInvalidConn, rows, w⟩
      else
        let r := readUntilEOF env mc w
        mysqlRows.release env r.1 { rows with eof := true } r.2
  else
    mysqlRows.release env none rows w

/-- Outcome of `Next`: the returned error, the receiver afterwards, the destination buffer
afterwards, the world afterwards. -/
structure NextResult where
  err : error
  rows : Option mysqlRows
  dest : List Value
  world : World

/-- Source `func (rows *mysqlRows) Next(dest []driver.Value) (err error)` (lines 89-113). -/
def mysqlRows.Next (env : Env) (rows : Option mysqlRows) (dest : List Value) (w : World) :
    NextResult :=
  match rows with
  | none => ⟨errInvalidConn, none, dest, w⟩
  | some r =>
    if r.eof then ⟨io.EOF, some r, dest, w⟩
    else if connGone w r.mc then ⟨errInvalidConn, some r, dest, w⟩
    else
      let d := if r.binary then readBinaryRow env r dest w else readRow env r dest w
      let r1 := if d.1 = io.EOF then { r with eof := true } else r
      ⟨d.1, some r1, d.2.1, d.2.2⟩

/-- Outcome of the cursor's `Close`. -/
structure CursorCloseResult where
  err : error
  ri : mysqlRowsI
  world : World

/-- Source `func (ri *mysqlRowsI) Close() error` (lines 54-63). -/
def mysqlRowsI.Close (env : Env) (ri : mysqlRowsI) (w : World) : CursorCloseResult :=
  match ri.mysqlRows with
  | none => ⟨none, ri, w⟩
  | some rows =>
    let c := mysqlRows.close env rows w
    let w1 := putMysqlRows c.rows c.world
    ⟨c.err, { ri with mysqlRows := none }, w1⟩

/-! ## Sequences of operations on one instance -/

/-- The calls made between two worlds of one run: the events appended to the trace. -/
def callsDuring (before after : World) : List Event :=
  after.trace.drop before.trace.length

/-- One thing that happens to a live `mysqlRows` instance: a call of one of its three
operations, or anything code outside this layer does to the world between two calls
(the connection being torn down, say). -/
inductive Op where
  | Columns
  | Next (dest : List Value)
  | close
  | outside (f : World → World)

/-- Effect of one `Op` on the instance and the world. -/
def Op.run (env : Env) (op : Op) (s : mysqlRows × World) : mysqlRows × World :=
  match op with
  | Op.Columns => s
  | Op.Next dest =>
    let res := mysqlRows.Next env (some s.1) dest s.2
    (match res.rows with
     | none => s.1
     | some r => r, res.world)
  | Op.close =>
    let res := mysqlRows.close env s.1 s.2
    (res.rows, res.world)
  | Op.outside f => (s.1, f s.2)

/-- Effect of a sequence of `Op`s, first to last. -/
def runOps (env : Env) (ops : List Op) (s : mysqlRows × World) : mysqlRows × World :=
  ops.foldl (fun acc op => Op.run env op acc) s

/-- Whether an event is a call of `readUntilEOF`. -/
def Event.isReadUntilEOF (e : Event) : Bool :=
  match e with
  | Event.readUntilEOF _ => true
  | _ => false

/-- Whether an event is a call of `putFields`. -/
def Event.isPutFields (e : Event) : Bool :=
  match e with
  | Event.putFields _ => true
  | _ => false

/-- Whether an event is a call of `putMysqlRows`. -/
def Event.isPutMysqlRows (e : Event) : Bool :=
  match e with
  | Event.putMysqlRows _ => true
  | _ => false

/-- Whether an event is a call of one of the two row decoders. -/
def Event.isDecoder (e : Event) : Bool :=
  match e with
  | Event.readRow _ => true
  | Event.readBinaryRow _ => true
  | _ => false

/-- An `Op` is quiet when, if it stands for outside code, that code leaves the record of
this layer's calls alone; the three operations are quiet by definition. -/
def Op.quiet (op : Op) : Prop :=
  match op with
  | Op.outside f => ∀ w, (f w).trace = w.trace
  | _ => True

/-- The cursor and the world after `n` successive calls of `Close` on one cursor. -/
def mysqlRowsI.CloseTimes (env : Env) (n : Nat) (s : mysqlRowsI × World) :
    mysqlRowsI × World :=
  match n with
  | 0 => s
  | k + 1 =>
    mysqlRowsI.CloseTimes env k
      ((mysqlRowsI.Close env s.1 s.2).ri, (mysqlRowsI.Close env s.1 s.2).world)

/-! ## Sample data -/

/-- A connection with an open transport and three unread packets. -/
def liveConn : mysqlConn := ⟨some 7, [1, 2, 3]⟩

/-- A connection whose transport is gone. -/
def deadConn : mysqlConn := ⟨none, []⟩

/-- Two columns, `id` and `name`. -/
def idName : List mysqlField := [⟨"id", 3, 0⟩, ⟨"name", 253, 0⟩]

/-- A world where connection 0 is live and every other one is dead, with no calls yet. -/
def world0 : World := ⟨fun c => if c = 0 then liveConn else deadConn, fun _ => idName, []⟩

/-- An environment where the drain succeeds and empties the stream, the text decoder
yields one row, the binary decoder reports end of data, and `putFields` wipes the array
it is given. -/
def env0 : Env where
  onReadUntilEOF := fun mc cs => (none, fun c => if c = mc then ⟨(cs c).netConn, []⟩ else cs c)
  onReadRow := fun _ _ dest cs => (none, dest.map (fun _ => Value.int 1), cs)
  onReadBinaryRow := fun _ _ dest cs => (io.EOF, dest, cs)
  onPutFields := fun cols fs =>
    match cols with
    | none => fs
    | some p => fun q => if q = p then [] else fs q

/-- An environment where the drain fails and tears the transport down, and both decoders
fail with a transport error. -/
def env1 : Env where
  onReadUntilEOF := fun mc cs => (some (Err.other 1), fun c => if c = mc then deadConn else cs c)
  onReadRow := fun _ _ dest cs => (some (Err.other 2), dest, cs)
  onReadBinaryRow := fun _ _ dest cs => (some (Err.other 2), dest, cs)
  onPutFields := fun _ fs => fs

/-! ## Theorems -/

/-- C1: the cursor's Close is idempotent.  After any Close, in any state and with any
behaviour of the connection and whatever that Close returned, the wrapped pointer is nil,
and every later Close on that cursor, in whatever world it runs, returns nil and leaves
the cursor and the whole world as they were: no call of readUntilEOF, putFields or
putMysqlRows is added to the trace, and nothing of the released instance is consulted,
the result being the same for every instance that was released. -/
theorem Close_idempotent (env : Env) (ri : mysqlRowsI) (w : World) :
    (mysqlRowsI.Close env ri w).ri.mysqlRows = none ∧
    ∀ later : World,
      mysqlRowsI.Close env (mysqlRowsI.Close env ri w).ri later
        = ⟨none, ⟨none⟩, later⟩ ∧
      callsDuring later
        (mysqlRowsI.Close env (mysqlRowsI.Close env ri w).ri later).world = [] := by
  have h : (mysqlRowsI.Close env ri w).ri = ⟨none⟩ := by
    cases ri with
    | mk p => cases p <;> rfl
  rw [h]
  refine ⟨rfl, fun later => ⟨rfl, ?_⟩⟩
  simp [mysqlRowsI.Close, callsDuring]

/-- C2: on an instance with eof = false and a live connection, close calls readUntilEOF
exactly once (on the instance's connection, before anything else), returns exactly the
value that call returned, and leaves the instance with eof = true, mc = nil and
columns = nil, whether that value is nil or an error. -/
theorem close_live_drains_once (env : Env) (rows : mysqlRows) (w : World) (mc : ConnPtr)
    (hEof : rows.eof = false) (hMc : rows.mc = some mc)
    (hNet : (w.conns mc).netConn ≠ none) :
    (mysqlRows.close env rows w).err = (env.onReadUntilEOF mc w.conns).1 ∧
    (callsDuring w (mysqlRows.close env rows w).world).filter
        (fun e => match e with
          | Event.readUntilEOF _ => true
          | _ => false) = [Event.readUntilEOF mc] ∧
    (callsDuring w (mysqlRows.close env rows w).world).head? = some (Event.readUntilEOF mc) ∧
    (mysqlRows.close env rows w).world.conns = (env.onReadUntilEOF mc w.conns).2 ∧
    (mysqlRows.close env rows w).rows = ⟨none, none, rows.binary, true⟩ := by
  have hn : (w.conns mc).netConn.isNone = false := by
    cases h : (w.conns mc).netConn with
    | none => exact absurd h hNet
    | some t => rfl
  cases hb : rows.binary <;>
    simp [mysqlRows.close, mysqlRows.release, readUntilEOF, putFields, callsDuring,
      hEof, hMc, hn, hb]

/-- Witness for C2: a text result set on the live connection 0, with a failing drain. -/
theorem close_live_drains_once_witness :
    (mysqlRows.close env1 ⟨some 0, some 5, false, false⟩ world0).err = some (Err.other 1) ∧
    (mysqlRows.close env1 ⟨some 0, some 5, false, false⟩ world0).rows
      = ⟨none, none, false, true⟩ := by
  have h := close_live_drains_once env1 ⟨some 0, some 5, false, false⟩ world0 0 rfl rfl
    (by decide)
  exact ⟨h.1, h.2.2.2.2⟩

/-- On an instance whose eof flag is set, Next returns io.EOF and changes nothing. -/
theorem Next_of_eof (env : Env) (r : mysqlRows) (dest : List Value) (w : World)
    (h : r.eof = true) :
    mysqlRows.Next env (some r) dest w = ⟨io.EOF, some r, dest, w⟩ := by
  simp [mysqlRows.Next, h]

/-- A Next that returns io.EOF leaves a non-nil instance whose eof flag is set. -/
theorem Next_EOF_sets_eof (env : Env) (r : mysqlRows) (dest : List Value) (w : World)
    (h : (mysqlRows.Next env (some r) dest w).err = io.EOF) :
    ∃ r1, (mysqlRows.Next env (some r) dest w).rows = some r1 ∧ r1.eof = true := by
  unfold mysqlRows.Next at h ⊢
  by_cases he : r.eof = true
  · exact ⟨r, by simp [he], he⟩
  · by_cases hg : connGone w r.mc = true
    · simp [he, hg, errInvalidConn, io.EOF] at h
    · simp only [he, hg] at h ⊢
      simp only [Bool.false_eq_true, if_false] at h ⊢
      refine ⟨{ r with eof := true }, ?_, rfl⟩
      simp [h]

/-- The release part of close keeps the eof flag. -/
theorem release_eof (env : Env) (err : error) (r : mysqlRows) (w : World) :
    (mysqlRows.release env err r w).rows.eof = r.eof := by
  simp [mysqlRows.release]

/-- No single operation, and nothing done outside this layer, clears a set eof flag. -/
theorem Op_run_keeps_eof (env : Env) (op : Op) (s : mysqlRows × World)
    (h : s.1.eof = true) : (Op.run env op s).1.eof = true := by
  cases op with
  | Columns => exact h
  | Next dest => simp [Op.run, Next_of_eof env s.1 dest s.2 h, h]
  | close => simp [Op.run, mysqlRows.close, h, release_eof]
  | outside f => exact h

/-- No sequence of operations clears a set eof flag. -/
theorem runOps_keeps_eof (env : Env) (ops : List Op) (s : mysqlRows × World)
    (h : s.1.eof = true) : (runOps env ops s).1.eof = true := by
  induction ops generalizing s with
  | nil => exact h
  | cons op rest ih =>
    simp only [runOps, List.foldl_cons]
    exact ih (Op.run env op s) (Op_run_keeps_eof env op s h)

/-- C3: end-of-rows is sticky.  If a call of Next returns io.EOF, the instance it leaves
is non-nil, and after any sequence of Columns, Next and close calls on it, with anything
done to the world in between (the connection detached, say), every Next returns io.EOF
again, calls neither readRow nor readBinaryRow (no call at all is added to the trace),
and leaves the destination buffer, the instance and the world as they were. -/
theorem Next_EOF_sticky (env : Env) (rows : mysqlRows) (dest : List Value) (w : World)
    (hEOF : (mysqlRows.Next env (some rows) dest w).err = io.EOF) :
    ∃ r1, (mysqlRows.Next env (some rows) dest w).rows = some r1 ∧
      ∀ (ops : List Op) (dest1 : List Value) (s : mysqlRows × World),
        s = runOps env ops (r1, (mysqlRows.Next env (some rows) dest w).world) →
        mysqlRows.Next env (some s.1) dest1 s.2 = ⟨io.EOF, some s.1, dest1, s.2⟩ ∧
        callsDuring s.2 (mysqlRows.Next env (some s.1) dest1 s.2).world = [] := by
  obtain ⟨r1, hr1, he1⟩ := Next_EOF_sets_eof env rows dest w hEOF
  refine ⟨r1, hr1, fun ops dest1 s hs => ?_⟩
  have hk : s.1.eof = true := by
    rw [hs]
    exact runOps_keeps_eof env ops (r1, (mysqlRows.Next env (some rows) dest w).world) he1
  rw [Next_of_eof env s.1 dest1 s.2 hk]
  exact ⟨rfl, by simp [callsDuring]⟩

/-- Witness for C3: the binary decoder of env0 reports end of data on the first Next; the
instance is then closed, the transport torn down, and Next is called again. -/
theorem Next_EOF_sticky_witness :
    (mysqlRows.Next env0 (some ⟨some 0, some 5, true, false⟩) [Value.null] world0).err
      = io.EOF ∧
    ∃ r1, (mysqlRows.Next env0 (some ⟨some 0, some 5, true, false⟩) [Value.null] world0).rows
        = some r1 ∧
      ∀ (ops : List Op) (dest1 : List Value) (s : mysqlRows × World),
        s = runOps env0 ops (r1, (mysqlRows.Next env0
              (some ⟨some 0, some 5, true, false⟩) [Value.null] world0).world) →
        mysqlRows.Next env0 (some s.1) dest1 s.2 = ⟨io.EOF, some s.1, dest1, s.2⟩ ∧
        callsDuring s.2 (mysqlRows.Next env0 (some s.1) dest1 s.2).world = [] :=
  ⟨by decide,
    Next_EOF_sticky env0 ⟨some 0, some 5, true, false⟩ [Value.null] world0 (by decide)⟩

/-- C4: on a non-nil instance with eof = false whose connection reference is nil or whose
transport is nil, Next returns errInvalidConn, calls neither readRow nor readBinaryRow
(no call is added to the trace), and leaves every field of the instance, the destination
buffer and the world as they were. -/
theorem Next_open_without_conn (env : Env) (rows : mysqlRows) (dest : List Value)
    (w : World) (hEof : rows.eof = false)
    (hGone : rows.mc = none ∨ ∃ c, rows.mc = some c ∧ (w.conns c).netConn = none) :
    mysqlRows.Next env (some rows) dest w = ⟨errInvalidConn, some rows, dest, w⟩ ∧
    callsDuring w (mysqlRows.Next env (some rows) dest w).world = [] := by
  have hg : connGone w rows.mc = true := by
    rcases hGone with h | ⟨c, hc, hn⟩
    · simp [connGone, h]
    · simp [connGone, hc, hn]
  have hres : mysqlRows.Next env (some rows) dest w = ⟨errInvalidConn, some rows, dest, w⟩ := by
    simp [mysqlRows.Next, hEof, hg]
  rw [hres]
  exact ⟨rfl, by simp [callsDuring]⟩

/-- Witness for C4: connection 1 of world0 has no transport. -/
theorem Next_open_without_conn_witness :
    mysqlRows.Next env0 (some ⟨some 1, some 5, false, false⟩) [Value.null] world0
      = ⟨errInvalidConn, some ⟨some 1, some 5, false, false⟩, [Value.null], world0⟩ :=
  (Next_open_without_conn env0 ⟨some 1, some 5, false, false⟩ [Value.null] world0 rfl
    (Or.inr ⟨1, rfl, by decide⟩)).1

/-- C5, as the code has it: the guard of line 68 means close releases nothing when it
finds eof = false and the connection reference nil or the transport nil.  For an
instance with eof = true, or with eof = false and a live connection, whatever the drain
returns, the instance after close has mc = nil and columns = nil, and Close on a cursor
wrapping it hands exactly that cleared instance to putMysqlRows.  For an instance with
eof = false and no live connection, close returns errInvalidConn and changes nothing,
and Close hands the unchanged instance to putMysqlRows. -/
theorem close_leaves_closed_unless_guarded (env : Env) (rows : mysqlRows) (w : World) :
    ((rows.eof = true ∨ connGone w rows.mc = false) →
      (mysqlRows.close env rows w).rows.mc = none ∧
      (mysqlRows.close env rows w).rows.columns = none ∧
      callsDuring (mysqlRows.close env rows w).world
          (mysqlRowsI.Close env ⟨some rows⟩ w).world
        = [Event.putMysqlRows ⟨none, none, rows.binary, true⟩]) ∧
    (rows.eof = false → connGone w rows.mc = true →
      mysqlRows.close env rows w = ⟨errInvalidConn, rows, w⟩ ∧
      callsDuring w (mysqlRowsI.Close env ⟨some rows⟩ w).world
        = [Event.putMysqlRows rows]) := by
  constructor
  · intro h
    by_cases he : rows.eof = true
    · simp [mysqlRowsI.Close, mysqlRows.close, mysqlRows.release, putMysqlRows,
        callsDuring, he]
    · have hg : connGone w rows.mc = false := by
        rcases h with h | h
        · exact absurd h he
        · exact h
      cases hm : rows.mc with
      | none => simp [connGone, hm] at hg
      | some c =>
        have hn : (w.conns c).netConn.isNone = false := by simpa [connGone, hm] using hg
        simp [mysqlRowsI.Close, mysqlRows.close, mysqlRows.release, putMysqlRows,
          callsDuring, he, hm, hn]
  · intro he hg
    cases hm : rows.mc with
    | none =>
      simp [mysqlRowsI.Close, mysqlRows.close, putMysqlRows, callsDuring, he, hm]
    | some c =>
      have hn : (w.conns c).netConn.isNone = true := by simpa [connGone, hm] using hg
      simp [mysqlRowsI.Close, mysqlRows.close, putMysqlRows, callsDuring, he, hm, hn]

/-- Witness for C5: an exhausted text result set on the live connection 0. -/
theorem close_leaves_closed_unless_guarded_witness :
    (mysqlRows.close env0 ⟨some 0, some 5, false, true⟩ world0).rows.mc = none ∧
    (mysqlRows.close env0 ⟨some 0, some 5, false, true⟩ world0).rows.columns = none ∧
    callsDuring (mysqlRows.close env0 ⟨some 0, some 5, false, true⟩ world0).world
        (mysqlRowsI.Close env0 ⟨some ⟨some 0, some 5, false, true⟩⟩ world0).world
      = [Event.putMysqlRows ⟨none, none, false, true⟩] :=
  (close_leaves_closed_unless_guarded env0 ⟨some 0, some 5, false, true⟩ world0).1
    (Or.inl rfl)

/-- C5 as stated fails: an instance with eof = false whose connection reference is
present (connection 1) but whose transport is nil is not cleared by close, which returns
errInvalidConn, and Close hands it to putMysqlRows still holding its connection and its
columns. -/
theorem close_open_detached_not_closed :
    ((⟨some 1, some 5, false, false⟩ : mysqlRows).mc ≠ none ∧
      (⟨some 1, some 5, false, false⟩ : mysqlRows).eof = false) ∧
    ¬ ((mysqlRows.close env0 ⟨some 1, some 5, false, false⟩ world0).rows.mc = none ∧
       (mysqlRows.close env0 ⟨some 1, some 5, false, false⟩ world0).rows.columns = none) ∧
    (mysqlRows.close env0 ⟨some 1, some 5, false, false⟩ world0).err = errInvalidConn ∧
    (mysqlRowsI.Close env0 ⟨some ⟨some 1, some 5, false, false⟩⟩ world0).world.trace
      = [Event.putMysqlRows ⟨some 1, some 5, false, false⟩] := by
  decide

/-- One step of the loop of Columns, at an index within range. -/
theorem columnsAssign_step (src : List mysqlField) (k : Nat) (hk : k < src.length) :
    columnsAssign src ((src.take k).map mysqlField.name ++ List.replicate (src.length - k) "") k
      = Except.ok ((src.take (k + 1)).map mysqlField.name
          ++ List.replicate (src.length - (k + 1)) "") := by
  have h1 : src[k]? = some src[k] := List.getElem?_eq_getElem hk
  have hl : ((src.take k).map mysqlField.name).length = k := by
    rw [List.length_map, List.length_take]
    exact Nat.min_eq_left (Nat.le_of_lt hk)
  have hlen : k < ((src.take k).map mysqlField.name
      ++ List.replicate (src.length - k) "").length := by
    rw [List.length_append, hl, List.length_replicate]
    omega
  have hrep : src.length - k = (src.length - (k + 1)) + 1 := by omega
  simp only [columnsAssign, h1, hlen, if_true]
  congr 1
  rw [List.set_append_right k _ (Nat.le_of_eq hl), hl, Nat.sub_self, hrep,
    List.replicate_succ, List.set_cons_zero, ← List.take_concat_get' src k hk,
    List.map_append, List.append_assoc]
  rfl

/-- The loop of Columns after its first k rounds: k names, then untouched entries. -/
theorem columns_fill (src : List mysqlField) (k : Nat) (hk : k ≤ src.length) :
    (List.range k).foldlM (columnsAssign src) (List.replicate src.length "")
      = Except.ok ((src.take k).map mysqlField.name ++ List.replicate (src.length - k) "") := by
  induction k with
  | zero => simp [pure, Except.pure]
  | succ k ih =>
    rw [List.range_succ, List.foldlM_append, ih (Nat.le_of_succ_le hk)]
    simp only [bind, Except.bind, List.foldlM_cons, List.foldlM_nil]
    rw [columnsAssign_step src k hk]
    rfl

/-- Columns on a non-nil instance yields the names of its columns, in order. -/
theorem Columns_eq_map (r : mysqlRows) (w : World) :
    mysqlRows.Columns (some r) w
      = Except.ok (some ((sliceElems w r.columns).map mysqlField.name)) := by
  simp only [mysqlRows.Columns, List.length_replicate]
  rw [columns_fill _ _ (Nat.le_refl _)]
  simp [Except.map]

/-- C6: Columns never fails and returns the column names in order.  On a nil receiver it
returns the nil slice, which is empty.  On a non-nil instance it returns a slice of
length len(rows.columns) whose i-th element is rows.columns[i].name for every index i;
in particular it is empty when the instance's columns are nil. -/
theorem Columns_never_fails_names_in_order (w : World) :
    (∃ s, mysqlRows.Columns none w = Except.ok s ∧ s.len = 0) ∧
    ∀ r : mysqlRows, ∃ names : List String,
      mysqlRows.Columns (some r) w = Except.ok (some names) ∧
      names.length = (sliceElems w r.columns).length ∧
      (∀ i : Fin (sliceElems w r.columns).length,
        names[i.val]? = some ((sliceElems w r.columns).get i).name) ∧
      (r.columns = none → names = []) := by
  refine ⟨⟨none, rfl, rfl⟩, fun r => ?_⟩
  refine ⟨(sliceElems w r.columns).map mysqlField.name, Columns_eq_map r w, ?_, ?_, ?_⟩
  · simp
  · intro i
    simp [List.getElem?_map, List.getElem?_eq_getElem i.isLt]
  · intro h
    simp [h, sliceElems]

/-- C7: on an instance with eof = false and a live connection, Next returns the value of
the row decoder it ran (readBinaryRow when binary, readRow otherwise) as it is, changes
no field but eof, and afterwards eof is true exactly when that value is io.EOF: after a
decoded row (nil) and after any other error eof is still false. -/
theorem Next_live_returns_decoder_value (env : Env) (rows : mysqlRows) (dest : List Value)
    (w : World) (c : ConnPtr) (hEof : rows.eof = false) (hMc : rows.mc = some c)
    (hNet : (w.conns c).netConn ≠ none) :
    (rows.binary = true → (mysqlRows.Next env (some rows) dest w).err
        = (env.onReadBinaryRow rows w.fields dest w.conns).1) ∧
    (rows.binary = false → (mysqlRows.Next env (some rows) dest w).err
        = (env.onReadRow rows w.fields dest w.conns).1) ∧
    ∃ r1, (mysqlRows.Next env (some rows) dest w).rows = some r1 ∧
      (r1.eof = true ↔ (mysqlRows.Next env (some rows) dest w).err = io.EOF) ∧
      r1.mc = rows.mc ∧ r1.columns = rows.columns ∧ r1.binary = rows.binary := by
  have hn : (w.conns c).netConn.isNone = false := by
    cases h : (w.conns c).netConn with
    | none => exact absurd h hNet
    | some t => rfl
  have hg : connGone w rows.mc = false := by simp [connGone, hMc, hn]
  cases hb : rows.binary
  · by_cases hd : (env.onReadRow rows w.fields dest w.conns).1 = io.EOF <;>
      simp [mysqlRows.Next, readRow, hEof, hg, hb, hd]
  · by_cases hd : (env.onReadBinaryRow rows w.fields dest w.conns).1 = io.EOF <;>
      simp [mysqlRows.Next, readBinaryRow, hEof, hg, hb, hd]

/-- Witness for C7: a text result set on the live connection 0 with a failing decoder. -/
theorem Next_live_returns_decoder_value_witness :
    (mysqlRows.Next env1 (some ⟨some 0, some 5, false, false⟩) [Value.null] world0).err
      = some (Err.other 2) ∧
    ∃ r1, (mysqlRows.Next env1 (some ⟨some 0, some 5, false, false⟩) [Value.null] world0).rows
        = some r1 ∧
      (r1.eof = true ↔
        (mysqlRows.Next env1 (some ⟨some 0, some 5, false, false⟩) [Value.null] world0).err
          = io.EOF) ∧
      r1.mc = some 0 ∧ r1.columns = some 5 ∧ r1.binary = false :=
  ⟨(Next_live_returns_decoder_value env1 ⟨some 0, some 5, false, false⟩ [Value.null] world0 0
      rfl rfl (by decide)).2.1 rfl,
   (Next_live_returns_decoder_value env1 ⟨some 0, some 5, false, false⟩ [Value.null] world0 0
      rfl rfl (by decide)).2.2⟩

/-- Columns reads the world only through the column backing arrays. -/
theorem Columns_congr_fields (r : Option mysqlRows) (w1 w2 : World)
    (h : w1.fields = w2.fields) : mysqlRows.Columns r w1 = mysqlRows.Columns r w2 := by
  cases r with
  | none => rfl
  | some r => simp [mysqlRows.Columns, sliceElems, h]

/-- C8: on an instance with binary = true, in every state and for every outcome of the
drain, close never calls putFields; the column backing arrays are left as they were, the
instance's own columns field is either cleared or untouched, and every result set, one
holding the same columns included, gets from Columns what it got before. -/
theorem close_binary_spares_columns (env : Env) (rows : mysqlRows) (w : World)
    (hb : rows.binary = true) :
    (∀ cols, Event.putFields cols ∉ callsDuring w (mysqlRows.close env rows w).world) ∧
    (mysqlRows.close env rows w).world.fields = w.fields ∧
    ((mysqlRows.close env rows w).rows.columns = none ∨
      (mysqlRows.close env rows w).rows.columns = rows.columns) ∧
    ∀ other : mysqlRows,
      mysqlRows.Columns (some other) (mysqlRows.close env rows w).world
        = mysqlRows.Columns (some other) w := by
  have key : (∀ cols, Event.putFields cols ∉ callsDuring w (mysqlRows.close env rows w).world) ∧
      (mysqlRows.close env rows w).world.fields = w.fields ∧
      ((mysqlRows.close env rows w).rows.columns = none ∨
        (mysqlRows.close env rows w).rows.columns = rows.columns) := by
    by_cases he : rows.eof = true
    · simp [mysqlRows.close, mysqlRows.release, callsDuring, he, hb]
    · cases hm : rows.mc with
      | none => simp [mysqlRows.close, callsDuring, he, hm]
      | some c =>
        cases hn : (w.conns c).netConn.isNone <;>
          simp [mysqlRows.close, mysqlRows.release, readUntilEOF, callsDuring, he, hm, hn, hb]
  exact ⟨key.1, key.2.1, key.2.2,
    fun other => Columns_congr_fields (some other) _ _ key.2.1⟩

/-- Witness for C8: two binary result sets share the columns at address 5; the first is
closed with a failing drain. -/
theorem close_binary_spares_columns_witness :
    (∀ cols, Event.putFields cols ∉
      callsDuring world0 (mysqlRows.close env1 ⟨some 0, some 5, true, false⟩ world0).world) ∧
    mysqlRows.Columns (some ⟨some 0, some 5, true, false⟩)
        (mysqlRows.close env1 ⟨some 0, some 5, true, false⟩ world0).world
      = mysqlRows.Columns (some ⟨some 0, some 5, true, false⟩) world0 :=
  ⟨(close_binary_spares_columns env1 ⟨some 0, some 5, true, false⟩ world0 rfl).1,
   (close_binary_spares_columns env1 ⟨some 0, some 5, true, false⟩ world0 rfl).2.2.2
     ⟨some 0, some 5, true, false⟩⟩

/-- C9: closing a spent result set never errors.  On an instance with eof = true, whether
its connection reference is nil, its transport nil, or the connection live, close
returns nil, does not call readUntilEOF, and leaves every connection as it was. -/
theorem close_spent_returns_nil (env : Env) (rows : mysqlRows) (w : World)
    (hEof : rows.eof = true) :
    (mysqlRows.close env rows w).err = none ∧
    (∀ c, Event.readUntilEOF c ∉ callsDuring w (mysqlRows.close env rows w).world) ∧
    (mysqlRows.close env rows w).world.conns = w.conns := by
  cases hb : rows.binary <;>
    simp [mysqlRows.close, mysqlRows.release, putFields, callsDuring, hEof, hb]

/-- Witness for C9: a spent text result set whose transport is gone, in an environment
where any drain would fail. -/
theorem close_spent_returns_nil_witness :
    (mysqlRows.close env1 ⟨some 1, some 5, false, true⟩ world0).err = none ∧
    (∀ c, Event.readUntilEOF c ∉
      callsDuring world0 (mysqlRows.close env1 ⟨some 1, some 5, false, true⟩ world0).world) ∧
    (mysqlRows.close env1 ⟨some 1, some 5, false, true⟩ world0).world.conns = world0.conns :=
  close_spent_returns_nil env1 ⟨some 1, some 5, false, true⟩ world0 rfl

/-- C10, as the code has it: close has no test for an instance that is already Closed.
On an instance with mc = nil and columns = nil: when eof = true (as after any close that
ran to its end), close returns nil, reads nothing from any connection and leaves the
instance unchanged, and it makes no call at all when binary = true but calls putFields
once, with the nil columns, when binary = false; when eof = false, close returns
errInvalidConn, makes no call and leaves the instance and the world unchanged. -/
theorem close_of_closed (env : Env) (rows : mysqlRows) (w : World)
    (hMc : rows.mc = none) (hCols : rows.columns = none) :
    (rows.eof = true →
      (mysqlRows.close env rows w).err = none ∧
      (mysqlRows.close env rows w).rows = rows ∧
      (mysqlRows.close env rows w).world.conns = w.conns ∧
      callsDuring w (mysqlRows.close env rows w).world
        = (if rows.binary then [] else [Event.putFields none])) ∧
    (rows.eof = false → mysqlRows.close env rows w = ⟨errInvalidConn, rows, w⟩) := by
  cases rows with
  | mk mc columns binary eof =>
    simp only at hMc hCols
    subst hMc hCols
    constructor
    · intro he
      simp only at he
      subst he
      cases binary <;>
        simp [mysqlRows.close, mysqlRows.release, putFields, callsDuring]
    · intro he
      simp only at he
      subst he
      simp [mysqlRows.close]

/-- Witness for C10: the instance a text result set is left as by a first close. -/
theorem close_of_closed_witness :
    (mysqlRows.close env0 ⟨none, none, false, true⟩ world0).err = none ∧
    (mysqlRows.close env0 ⟨none, none, false, true⟩ world0).rows = ⟨none, none, false, true⟩ ∧
    (mysqlRows.close env0 ⟨none, none, false, true⟩ world0).world.conns = world0.conns ∧
    callsDuring world0 (mysqlRows.close env0 ⟨none, none, false, true⟩ world0).world
      = [Event.putFields none] :=
  (close_of_closed env0 ⟨none, none, false, true⟩ world0 rfl rfl).1 rfl

/-- C10 as stated fails: on a Closed text instance (mc = nil, columns = nil, eof = true,
binary = false) close calls putFields, and on a Closed instance with eof = false it
returns errInvalidConn rather than nil. -/
theorem close_of_closed_not_noop :
    ((⟨none, none, false, true⟩ : mysqlRows).mc = none ∧
      (⟨none, none, false, true⟩ : mysqlRows).columns = none) ∧
    callsDuring world0 (mysqlRows.close env0 ⟨none, none, false, true⟩ world0).world
      = [Event.putFields none] ∧
    (mysqlRows.close env0 ⟨none, none, false, false⟩ world0).err ≠ none := by
  decide

/-- C11, as the code has it: on a text instance (binary = false) with eof = true, or with
eof = false and a live connection, close calls putFields exactly once, with the columns
the instance held before close.  On a text instance with eof = false whose connection
reference is nil or whose transport is nil, the guard of line 68 returns errInvalidConn
first and putFields is not called. -/
theorem close_text_returns_columns (env : Env) (rows : mysqlRows) (w : World)
    (hb : rows.binary = false) :
    ((rows.eof = true ∨ connGone w rows.mc = false) →
      (callsDuring w (mysqlRows.close env rows w).world).filter Event.isPutFields
        = [Event.putFields rows.columns]) ∧
    (rows.eof = false → connGone w rows.mc = true →
      (mysqlRows.close env rows w).err = errInvalidConn ∧
      callsDuring w (mysqlRows.close env rows w).world = []) := by
  constructor
  · intro h
    by_cases he : rows.eof = true
    · simp [mysqlRows.close, mysqlRows.release, putFields, callsDuring, he, hb,
        Event.isPutFields]
    · have hg : connGone w rows.mc = false := by
        rcases h with h | h
        · exact absurd h he
        · exact h
      cases hm : rows.mc with
      | none => simp [connGone, hm] at hg
      | some c =>
        have hn : (w.conns c).netConn.isNone = false := by simpa [connGone, hm] using hg
        simp [mysqlRows.close, mysqlRows.release, readUntilEOF, putFields, callsDuring,
          he, hm, hn, hb, Event.isPutFields, List.filter]
  · intro he hg
    cases hm : rows.mc with
    | none => simp [mysqlRows.close, callsDuring, he, hm]
    | some c =>
      have hn : (w.conns c).netConn.isNone = true := by simpa [connGone, hm] using hg
      simp [mysqlRows.close, callsDuring, he, hm, hn]

/-- Witness for C11: an unread text result set on the live connection 0. -/
theorem close_text_returns_columns_witness :
    (callsDuring world0 (mysqlRows.close env0 ⟨some 0, some 5, false, false⟩ world0).world).filter
        Event.isPutFields
      = [Event.putFields (some 5)] :=
  (close_text_returns_columns env0 ⟨some 0, some 5, false, false⟩ world0 rfl).1
    (Or.inr (by decide))

/-- C11 as stated fails: a text instance with eof = false whose connection reference is
present (connection 1) but whose transport is nil gets no putFields call from close. -/
theorem close_text_detached_keeps_columns :
    ((⟨some 1, some 5, false, false⟩ : mysqlRows).binary = false ∧
      (⟨some 1, some 5, false, false⟩ : mysqlRows).mc ≠ none ∧
      (⟨some 1, some 5, false, false⟩ : mysqlRows).eof = false) ∧
    (callsDuring world0 (mysqlRows.close env0 ⟨some 1, some 5, false, false⟩ world0).world).filter
        Event.isPutFields = [] := by
  decide

/-- C12, as the code has it: Next tests eof before it looks at the connection.  On an
instance with eof = true whose connection reference is nil or whose transport is nil,
Next returns io.EOF, not errInvalidConn, and changes nothing: the instance, the
destination buffer and the world are as before. -/
theorem Next_spent_without_conn (env : Env) (rows : mysqlRows) (dest : List Value)
    (w : World) (hEof : rows.eof = true)
    (hGone : rows.mc = none ∨ ∃ c, rows.mc = some c ∧ (w.conns c).netConn = none) :
    mysqlRows.Next env (some rows) dest w = ⟨io.EOF, some rows, dest, w⟩ ∧
    (mysqlRows.Next env (some rows) dest w).err ≠ errInvalidConn ∧
    connGone w rows.mc = true := by
  have hg : connGone w rows.mc = true := by
    rcases hGone with h | ⟨c, hc, hn⟩
    · simp [connGone, h]
    · simp [connGone, hc, hn]
  have hres := Next_of_eof env rows dest w hEof
  rw [hres]
  exact ⟨rfl, by simp [io.EOF, errInvalidConn], hg⟩

/-- Witness for C12: a spent instance whose connection 1 has no transport. -/
theorem Next_spent_without_conn_witness :
    mysqlRows.Next env0 (some ⟨some 1, some 5, false, true⟩) [Value.null] world0
      = ⟨io.EOF, some ⟨some 1, some 5, false, true⟩, [Value.null], world0⟩ :=
  (Next_spent_without_conn env0 ⟨some 1, some 5, false, true⟩ [Value.null] world0 rfl
    (Or.inr ⟨1, rfl, by decide⟩)).1

/-- C12 as stated fails: on a spent instance whose connection reference is nil, and on
one whose transport is nil, Next returns io.EOF and not errInvalidConn. -/
theorem Next_spent_without_conn_not_invalid :
    (mysqlRows.Next env0 (some ⟨none, none, false, true⟩) [Value.null] world0).err
      ≠ errInvalidConn ∧
    (mysqlRows.Next env0 (some ⟨some 1, some 5, false, true⟩) [Value.null] world0).err
      ≠ errInvalidConn := by
  decide

/-- Next on a non-nil instance leaves a non-nil instance with the same mc, columns and
binary fields. -/
theorem Next_frame (env : Env) (r : mysqlRows) (dest : List Value) (w : World) :
    ∃ r1, (mysqlRows.Next env (some r) dest w).rows = some r1 ∧
      r1.mc = r.mc ∧ r1.columns = r.columns ∧ r1.binary = r.binary := by
  unfold mysqlRows.Next
  by_cases he : r.eof = true
  · exact ⟨r, by simp [he], rfl, rfl, rfl⟩
  · by_cases hg : connGone w r.mc = true
    · exact ⟨r, by simp [he, hg], rfl, rfl, rfl⟩
    · simp only [he, hg, Bool.false_eq_true, if_false]
      split_ifs <;> exact ⟨_, rfl, rfl, rfl, rfl⟩

/-- After close the connection reference is nil or the one held before. -/
theorem close_mc (env : Env) (r : mysqlRows) (w : World) :
    (mysqlRows.close env r w).rows.mc = none ∨ (mysqlRows.close env r w).rows.mc = r.mc := by
  by_cases he : r.eof = true
  · simp [mysqlRows.close, mysqlRows.release, he]
  · cases hm : r.mc with
    | none => simp [mysqlRows.close, he, hm]
    | some c =>
      cases hn : (w.conns c).netConn.isNone <;>
        simp [mysqlRows.close, mysqlRows.release, he, hm, hn]

/-- No single operation, and nothing done outside this layer, turns a nil connection
reference into a non-nil one. -/
theorem Op_run_keeps_mc_nil (env : Env) (op : Op) (s : mysqlRows × World)
    (h : s.1.mc = none) : (Op.run env op s).1.mc = none := by
  cases op with
  | Columns => exact h
  | Next dest =>
    obtain ⟨r1, hr1, hmc, _, _⟩ := Next_frame env s.1 dest s.2
    simp [Op.run, hr1, hmc, h]
  | close =>
    rcases close_mc env s.1 s.2 with hc | hc
    · simpa [Op.run] using hc
    · simpa [Op.run, h] using hc
  | outside f => exact h

/-- No sequence of operations turns a nil connection reference into a non-nil one. -/
theorem runOps_keeps_mc_nil (env : Env) (ops : List Op) (s : mysqlRows × World)
    (h : s.1.mc = none) : (runOps env ops s).1.mc = none := by
  induction ops generalizing s with
  | nil => exact h
  | cons op rest ih =>
    simp only [runOps, List.foldl_cons]
    exact ih (Op.run env op s) (Op_run_keeps_mc_nil env op s h)

/-- C13: the exhausted flag is monotone.  On an instance with eof = true, under every
behaviour of the connection, eof is still true after Columns, after Next, after close,
and after any sequence of these with anything done to the world in between. -/
theorem eof_monotone (env : Env) (rows : mysqlRows) (w : World) (hEof : rows.eof = true) :
    (Op.run env Op.Columns (rows, w)).1.eof = true ∧
    (∀ dest, ∃ r1, (mysqlRows.Next env (some rows) dest w).rows = some r1 ∧ r1.eof = true) ∧
    (mysqlRows.close env rows w).rows.eof = true ∧
    ∀ ops : List Op, (runOps env ops (rows, w)).1.eof = true := by
  refine ⟨hEof, fun dest => ⟨rows, ?_, hEof⟩, ?_, fun ops => ?_⟩
  · rw [Next_of_eof env rows dest w hEof]
  · simp [mysqlRows.close, mysqlRows.release, hEof]
  · exact runOps_keeps_eof env ops (rows, w) hEof

/-- Witness for C13: a spent binary result set on the live connection 0, then closed,
read and asked for its columns. -/
theorem eof_monotone_witness :
    (mysqlRows.close env1 ⟨some 0, some 5, true, true⟩ world0).rows.eof = true ∧
    (runOps env1 [Op.close, Op.Next [Value.null], Op.Columns]
      (⟨some 0, some 5, true, true⟩, world0)).1.eof = true :=
  ⟨(eof_monotone env1 ⟨some 0, some 5, true, true⟩ world0 rfl).2.2.1,
   (eof_monotone env1 ⟨some 0, some 5, true, true⟩ world0 rfl).2.2.2
     [Op.close, Op.Next [Value.null], Op.Columns]⟩

/-- C14: the connection reference is never re-acquired and is cleared only by close.
Columns changes no field of the instance; Next leaves a non-nil instance whose mc,
columns and binary fields are those it had (only eof may differ); close leaves mc nil or
as it was; and from mc = nil no operation and no sequence of operations leads to a
non-nil mc. -/
theorem mc_never_reacquired (env : Env) (rows : mysqlRows) (w : World) :
    Op.run env Op.Columns (rows, w) = (rows, w) ∧
    (∀ dest, ∃ r1, (mysqlRows.Next env (some rows) dest w).rows = some r1 ∧
      r1.mc = rows.mc ∧ r1.columns = rows.columns ∧ r1.binary = rows.binary) ∧
    ((mysqlRows.close env rows w).rows.mc = none ∨
      (mysqlRows.close env rows w).rows.mc = rows.mc) ∧
    (rows.mc = none →
      (mysqlRows.close env rows w).rows.mc = none ∧
      ∀ ops : List Op, (runOps env ops (rows, w)).1.mc = none) := by
  refine ⟨rfl, fun dest => Next_frame env rows dest w, close_mc env rows w, fun h => ⟨?_, ?_⟩⟩
  · rcases close_mc env rows w with hc | hc
    · exact hc
    · rw [hc, h]
  · intro ops
    exact runOps_keeps_mc_nil env ops (rows, w) h

/-- Witness for C14: an instance closed once; a second close and a Next on it leave its
connection reference nil. -/
theorem mc_never_reacquired_witness :
    (mysqlRows.close env0 ⟨none, none, false, true⟩ world0).rows.mc = none ∧
    (runOps env0 [Op.close, Op.Next [Value.null]] (⟨none, none, false, true⟩, world0)).1.mc
      = none :=
  ⟨((mc_never_reacquired env0 ⟨none, none, false, true⟩ world0).2.2.2 rfl).1,
   ((mc_never_reacquired env0 ⟨none, none, false, true⟩ world0).2.2.2 rfl).2
     [Op.close, Op.Next [Value.null]]⟩

/-- The calls close adds to the trace: at most one readUntilEOF, none when eof was set,
one only if eof is set afterwards, and never a putMysqlRows or a decoder. -/
theorem close_trace (env : Env) (r : mysqlRows) (w : World) :
    ∃ calls, (mysqlRows.close env r w).world.trace = w.trace ++ calls ∧
      calls.countP Event.isReadUntilEOF ≤ 1 ∧
      (r.eof = true → calls.countP Event.isReadUntilEOF = 0) ∧
      (calls.countP Event.isReadUntilEOF = 1 → (mysqlRows.close env r w).rows.eof = true) ∧
      calls.countP Event.isPutMysqlRows = 0 ∧
      calls.countP Event.isDecoder = 0 := by
  by_cases he : r.eof = true
  · cases hb : r.binary
    · exact ⟨[Event.putFields r.columns],
        by simp [mysqlRows.close, mysqlRows.release, putFields, he, hb],
        by simp [Event.isReadUntilEOF], by simp [Event.isReadUntilEOF],
        by simp [Event.isReadUntilEOF], by simp [Event.isPutMysqlRows],
        by simp [Event.isDecoder]⟩
    · exact ⟨[], by simp [mysqlRows.close, mysqlRows.release, he, hb],
        by simp, by simp, by simp, by simp, by simp⟩
  · cases hm : r.mc with
    | none =>
      exact ⟨[], by simp [mysqlRows.close, he, hm], by simp, by simp, by simp, by simp,
        by simp⟩
    | some c =>
      cases hn : (w.conns c).netConn.isNone
      · cases hb : r.binary
        · exact ⟨[Event.readUntilEOF c, Event.putFields r.columns],
            by simp [mysqlRows.close, mysqlRows.release, readUntilEOF, putFields, he, hm,
              hn, hb],
            by simp [Event.isReadUntilEOF, List.countP_cons],
            fun h => absurd h he,
            by simp [mysqlRows.close, mysqlRows.release, he, hm, hn],
            by simp [Event.isPutMysqlRows], by simp [Event.isDecoder]⟩
        · exact ⟨[Event.readUntilEOF c],
            by simp [mysqlRows.close, mysqlRows.release, readUntilEOF, he, hm, hn, hb],
            by simp [Event.isReadUntilEOF, List.countP_cons],
            fun h => absurd h he,
            by simp [mysqlRows.close, mysqlRows.release, he, hm, hn],
            by simp [Event.isPutMysqlRows], by simp [Event.isDecoder]⟩
      · exact ⟨[], by simp [mysqlRows.close, he, hm, hn], by simp, by simp, by simp,
          by simp, by simp⟩

/-- Close on a cursor whose wrapped pointer is nil, any number of times, changes
nothing. -/
theorem CloseTimes_nil (env : Env) (n : Nat) (w : World) :
    mysqlRowsI.CloseTimes env n (⟨none⟩, w) = (⟨none⟩, w) := by
  induction n with
  | zero => rfl
  | succ k ih => simpa [mysqlRowsI.CloseTimes, mysqlRowsI.Close] using ih

/-- C15: on a cursor whose wrapped pointer is non-nil, Close returns exactly the value
the wrapped close returned, an error included, sets the wrapped pointer to nil, and
calls putMysqlRows exactly once, as its last call after those of close, with the
instance as close left it.  Over n successive Close calls on that cursor putMysqlRows
is called once in all (not at all when n = 0), so an instance is handed to the pool at
most once. -/
theorem Close_releases_once (env : Env) (ri : mysqlRowsI) (rows : mysqlRows) (w : World)
    (h : ri.mysqlRows = some rows) :
    (mysqlRowsI.Close env ri w).err = (mysqlRows.close env rows w).err ∧
    (mysqlRowsI.Close env ri w).ri.mysqlRows = none ∧
    (mysqlRowsI.Close env ri w).world.trace
      = (mysqlRows.close env rows w).world.trace
          ++ [Event.putMysqlRows (mysqlRows.close env rows w).rows] ∧
    (callsDuring w (mysqlRowsI.Close env ri w).world).countP Event.isPutMysqlRows = 1 ∧
    ∀ n : Nat,
      (callsDuring w (mysqlRowsI.CloseTimes env n (ri, w)).2).countP Event.isPutMysqlRows
        = (if n = 0 then 0 else 1) := by
  obtain ⟨calls, htrace, _, _, _, hput, _⟩ := close_trace env rows w
  have hri : mysqlRowsI.Close env ri w
      = ⟨(mysqlRows.close env rows w).err, ⟨none⟩,
          putMysqlRows (mysqlRows.close env rows w).rows (mysqlRows.close env rows w).world⟩ := by
    simp [mysqlRowsI.Close, h]
  have hcount : (callsDuring w (mysqlRowsI.Close env ri w).world).countP
      Event.isPutMysqlRows = 1 := by
    simp [hri, putMysqlRows, callsDuring, htrace, List.append_assoc, List.countP_append,
      hput, Event.isPutMysqlRows]
  refine ⟨by rw [hri], by rw [hri], by simp [hri, putMysqlRows], hcount, fun n => ?_⟩
  cases n with
  | zero => simp [mysqlRowsI.CloseTimes, callsDuring]
  | succ k =>
    have hstep : mysqlRowsI.CloseTimes env (k + 1) (ri, w)
        = mysqlRowsI.CloseTimes env k
            ((mysqlRowsI.Close env ri w).ri, (mysqlRowsI.Close env ri w).world) := rfl
    have hnil : (mysqlRowsI.Close env ri w).ri = ⟨none⟩ := by rw [hri]
    rw [hstep, hnil, CloseTimes_nil]
    simpa using hcount

/-- Witness for C15: a cursor on an unread text result set whose drain fails, closed
three times. -/
theorem Close_releases_once_witness :
    (mysqlRowsI.Close env1 ⟨some ⟨some 0, some 5, false, false⟩⟩ world0).err
      = (mysqlRows.close env1 ⟨some 0, some 5, false, false⟩ world0).err ∧
    (callsDuring world0
        (mysqlRowsI.CloseTimes env1 3 (⟨some ⟨some 0, some 5, false, false⟩⟩, world0)).2).countP
      Event.isPutMysqlRows = (if 3 = 0 then 0 else 1) :=
  ⟨(Close_releases_once env1 ⟨some ⟨some 0, some 5, false, false⟩⟩
      ⟨some 0, some 5, false, false⟩ world0 rfl).1,
   (Close_releases_once env1 ⟨some ⟨some 0, some 5, false, false⟩⟩
      ⟨some 0, some 5, false, false⟩ world0 rfl).2.2.2.2 3⟩

/-- The calls Next adds to the trace: never a readUntilEOF. -/
theorem Next_trace (env : Env) (r : mysqlRows) (dest : List Value) (w : World) :
    ∃ calls, (mysqlRows.Next env (some r) dest w).world.trace = w.trace ++ calls ∧
      calls.countP Event.isReadUntilEOF = 0 := by
  by_cases he : r.eof = true
  · exact ⟨[], by simp [mysqlRows.Next, he], by simp⟩
  · by_cases hg : connGone w r.mc = true
    · exact ⟨[], by simp [mysqlRows.Next, he, hg], by simp⟩
    · cases hb : r.binary
      · exact ⟨[Event.readRow dest], by simp [mysqlRows.Next, readRow, he, hg, hb],
          by simp [Event.isReadUntilEOF]⟩
      · exact ⟨[Event.readBinaryRow dest],
          by simp [mysqlRows.Next, readBinaryRow, he, hg, hb],
          by simp [Event.isReadUntilEOF]⟩

/-- The calls one quiet step adds to the trace: at most one readUntilEOF, none when eof
was set, one only if eof is set afterwards. -/
theorem Op_run_trace (env : Env) (op : Op) (s : mysqlRows × World) (hq : op.quiet) :
    ∃ calls, (Op.run env op s).2.trace = s.2.trace ++ calls ∧
      calls.countP Event.isReadUntilEOF ≤ 1 ∧
      (s.1.eof = true → calls.countP Event.isReadUntilEOF = 0) ∧
      (calls.countP Event.isReadUntilEOF = 1 → (Op.run env op s).1.eof = true) := by
  cases op with
  | Columns => exact ⟨[], by simp [Op.run], by simp, by simp, by simp⟩
  | Next dest =>
    obtain ⟨calls, ht, hc⟩ := Next_trace env s.1 dest s.2
    exact ⟨calls, by simpa [Op.run] using ht, by omega, fun _ => hc, fun h => by omega⟩
  | close =>
    obtain ⟨calls, ht, h1, h2, h3, _, _⟩ := close_trace env s.1 s.2
    exact ⟨calls, by simpa [Op.run] using ht, h1, h2, by simpa [Op.run] using h3⟩
  | outside f =>
    exact ⟨[], by simpa [Op.run] using hq s.2, by simp, by simp, by simp⟩

/-- The calls a sequence of quiet steps adds to the trace: at most one readUntilEOF, and
none when eof was set at the start. -/
theorem runOps_trace (env : Env) (ops : List Op) (s : mysqlRows × World)
    (hq : ∀ op ∈ ops, op.quiet) :
    ∃ calls, (runOps env ops s).2.trace = s.2.trace ++ calls ∧
      calls.countP Event.isReadUntilEOF ≤ 1 ∧
      (s.1.eof = true → calls.countP Event.isReadUntilEOF = 0) := by
  induction ops generalizing s with
  | nil => exact ⟨[], by simp [runOps], by simp, by simp⟩
  | cons op rest ih =>
    obtain ⟨c1, ht1, hle1, hz1, he1⟩ :=
      Op_run_trace env op s (hq op (List.mem_cons_self op rest))
    obtain ⟨c2, ht2, hle2, hz2⟩ :=
      ih (Op.run env op s) (fun o ho => hq o (List.mem_cons_of_mem op ho))
    refine ⟨c1 ++ c2, ?_, ?_, ?_⟩
    · simp only [runOps, List.foldl_cons] at ht2 ⊢
      rw [ht2, ht1, List.append_assoc]
    · rw [List.countP_append]
      by_cases h : c1.countP Event.isReadUntilEOF = 1
      · have := hz2 (he1 h)
        omega
      · omega
    · intro h
      rw [List.countP_append, hz1 h, hz2 (Op_run_keeps_eof env op s h)]

/-- C16: the stream is drained at most once.  Over every sequence of Columns, Next and
close calls on one instance, under every behaviour of the connection and with anything
done to the connections in between, readUntilEOF is called at most once; and once a
Next has returned io.EOF, no later sequence of calls on the instance it leaves calls
readUntilEOF at all. -/
theorem drained_at_most_once (env : Env) (rows : mysqlRows) (w : World) (ops : List Op)
    (hq : ∀ op ∈ ops, op.quiet) :
    (callsDuring w (runOps env ops (rows, w)).2).countP Event.isReadUntilEOF ≤ 1 ∧
    ∀ dest, (mysqlRows.Next env (some rows) dest w).err = io.EOF →
      ∃ r1, (mysqlRows.Next env (some rows) dest w).rows = some r1 ∧
        (callsDuring (mysqlRows.Next env (some rows) dest w).world
          (runOps env ops (r1, (mysqlRows.Next env (some rows) dest w).world)).2).countP
            Event.isReadUntilEOF = 0 := by
  constructor
  · obtain ⟨calls, ht, hle, _⟩ := runOps_trace env ops (rows, w) hq
    simpa [callsDuring, ht] using hle
  · intro dest hEOF
    obtain ⟨r1, hr1, he1⟩ := Next_EOF_sets_eof env rows dest w hEOF
    obtain ⟨calls, ht, _, hz⟩ :=
      runOps_trace env ops (r1, (mysqlRows.Next env (some rows) dest w).world) hq
    refine ⟨r1, hr1, ?_⟩
    simpa [callsDuring, ht] using hz he1

/-- Witness for C16: an unread text result set whose transport is gone is closed, the
connection is then brought back by outside code, and the instance is closed twice. -/
theorem drained_at_most_once_witness :
    (callsDuring world0
      (runOps env0
        [Op.close, Op.outside (fun w => { w with conns := fun _ => liveConn }), Op.close,
          Op.close]
        (⟨some 1, some 5, false, false⟩, world0)).2).countP Event.isReadUntilEOF ≤ 1 :=
  (drained_at_most_once env0 ⟨some 1, some 5, false, false⟩ world0
    [Op.close, Op.outside (fun w => { w with conns := fun _ => liveConn }), Op.close,
      Op.close]
    (by
      intro op hop
      simp only [List.mem_cons, List.mem_singleton, List.not_mem_nil, or_false] at hop
      rcases hop with h | h | h | h <;> subst h <;> simp [Op.quiet])).1

/-- C17: Next dispatches on the encoding flag.  On an instance with eof = false and a live
connection, Next makes exactly one call, of a row decoder, with the caller's destination
buffer: readBinaryRow when binary = true, readRow when binary = false, and never the
other one; what it returns and what it leaves in the buffer are that decoder's. -/
theorem Next_dispatches_on_binary (env : Env) (rows : mysqlRows) (dest : List Value)
    (w : World) (c : ConnPtr) (hEof : rows.eof = false) (hMc : rows.mc = some c)
    (hNet : (w.conns c).netConn ≠ none) :
    callsDuring w (mysqlRows.Next env (some rows) dest w).world
      = [if rows.binary then Event.readBinaryRow dest else Event.readRow dest] ∧
    (callsDuring w (mysqlRows.Next env (some rows) dest w).world).countP Event.isDecoder = 1 ∧
    (rows.binary = true →
      Event.readRow dest ∉ callsDuring w (mysqlRows.Next env (some rows) dest w).world ∧
      (mysqlRows.Next env (some rows) dest w).err
        = (env.onReadBinaryRow rows w.fields dest w.conns).1 ∧
      (mysqlRows.Next env (some rows) dest w).dest
        = (env.onReadBinaryRow rows w.fields dest w.conns).2.1) ∧
    (rows.binary = false →
      Event.readBinaryRow dest ∉ callsDuring w (mysqlRows.Next env (some rows) dest w).world ∧
      (mysqlRows.Next env (some rows) dest w).err
        = (env.onReadRow rows w.fields dest w.conns).1 ∧
      (mysqlRows.Next env (some rows) dest w).dest
        = (env.onReadRow rows w.fields dest w.conns).2.1) := by
  have hn : (w.conns c).netConn.isNone = false := by
    cases h : (w.conns c).netConn with
    | none => exact absurd h hNet
    | some t => rfl
  have hg : connGone w rows.mc = false := by simp [connGone, hMc, hn]
  cases hb : rows.binary
  · simp [mysqlRows.Next, readRow, callsDuring, hEof, hg, hb, Event.isDecoder]
  · simp [mysqlRows.Next, readBinaryRow, callsDuring, hEof, hg, hb, Event.isDecoder]

/-- Witness for C17: a binary and a text result set on the live connection 0. -/
theorem Next_dispatches_on_binary_witness :
    callsDuring world0
        (mysqlRows.Next env0 (some ⟨some 0, some 5, true, false⟩) [Value.null] world0).world
      = [Event.readBinaryRow [Value.null]] ∧
    callsDuring world0
        (mysqlRows.Next env0 (some ⟨some 0, some 5, false, false⟩) [Value.null] world0).world
      = [Event.readRow [Value.null]] :=
  ⟨(Next_dispatches_on_binary env0 ⟨some 0, some 5, true, false⟩ [Value.null] world0 0
      rfl rfl (by decide)).1,
   (Next_dispatches_on_binary env0 ⟨some 0, some 5, false, false⟩ [Value.null] world0 0
      rfl rfl (by decide)).1⟩

/-- C18: on an instance with a live connection, if Next returns something other than
io.EOF (a decoder error in particular), the instance it leaves still has eof = false and
its connection reference, so a close on it in any world where that connection is still
live attempts the drain: it calls readUntilEOF on the connection, first and exactly
once, and returns what that call returned. -/
theorem close_after_failed_Next_drains (env : Env) (rows : mysqlRows) (dest : List Value)
    (w : World) (c : ConnPtr) (hMc : rows.mc = some c)
    (hNet : (w.conns c).netConn ≠ none)
    (hErr : (mysqlRows.Next env (some rows) dest w).err ≠ io.EOF) :
    ∃ r1, (mysqlRows.Next env (some rows) dest w).rows = some r1 ∧
      r1.eof = false ∧ r1.mc = some c ∧
      ∀ later : World, (later.conns c).netConn ≠ none →
        (mysqlRows.close env r1 later).err = (env.onReadUntilEOF c later.conns).1 ∧
        (callsDuring later (mysqlRows.close env r1 later).world).head?
          = some (Event.readUntilEOF c) ∧
        (callsDuring later (mysqlRows.close env r1 later).world).countP
          Event.isReadUntilEOF = 1 := by
  have hn : (w.conns c).netConn.isNone = false := by
    cases h : (w.conns c).netConn with
    | none => exact absurd h hNet
    | some t => rfl
  have hg : connGone w rows.mc = false := by simp [connGone, hMc, hn]
  have he : rows.eof = false := by
    cases h : rows.eof with
    | false => rfl
    | true => exact absurd (by rw [Next_of_eof env rows dest w h]) hErr
  have hr : (mysqlRows.Next env (some rows) dest w).rows = some rows := by
    cases hb : rows.binary
    · have hd : (env.onReadRow rows w.fields dest w.conns).1 ≠ io.EOF := by
        simpa [mysqlRows.Next, readRow, he, hg, hb] using hErr
      simp [mysqlRows.Next, readRow, he, hg, hb, hd]
    · have hd : (env.onReadBinaryRow rows w.fields dest w.conns).1 ≠ io.EOF := by
        simpa [mysqlRows.Next, readBinaryRow, he, hg, hb] using hErr
      simp [mysqlRows.Next, readBinaryRow, he, hg, hb, hd]
  refine ⟨rows, hr, he, hMc, fun later hl => ?_⟩
  have hln : (later.conns c).netConn.isNone = false := by
    cases h : (later.conns c).netConn with
    | none => exact absurd h hl
    | some t => rfl
  cases hb : rows.binary <;>
    simp [mysqlRows.close, mysqlRows.release, readUntilEOF, putFields, callsDuring, he,
      hMc, hln, hb, Event.isReadUntilEOF, List.countP_cons]

/-- Witness for C18: the text decoder of env1 fails with a transport error and leaves
connection 0 live; the close that follows runs the drain, which fails too. -/
theorem close_after_failed_Next_drains_witness :
    (mysqlRows.Next env1 (some ⟨some 0, some 5, false, false⟩) [Value.null] world0).err
      = some (Err.other 2) ∧
    ∃ r1, (mysqlRows.Next env1 (some ⟨some 0, some 5, false, false⟩) [Value.null] world0).rows
        = some r1 ∧
      r1.eof = false ∧ r1.mc = some 0 ∧
      ∀ later : World, (later.conns 0).netConn ≠ none →
        (mysqlRows.close env1 r1 later).err = (env1.onReadUntilEOF 0 later.conns).1 ∧
        (callsDuring later (mysqlRows.close env1 r1 later).world).head?
          = some (Event.readUntilEOF 0) ∧
        (callsDuring later (mysqlRows.close env1 r1 later).world).countP
          Event.isReadUntilEOF = 1 :=
  ⟨by decide,
   close_after_failed_Next_drains env1 ⟨some 0, some 5, false, false⟩ [Value.null] world0 0
     rfl (by decide) (by decide)⟩

/-- C19: after Close on a cursor, in any state it was in (also when its result set had
already returned io.EOF, that is with eof = true), the wrapped pointer is nil, so in
whatever world they run Next returns errInvalidConn, calls no decoder, and leaves the
destination buffer and the world as they were, and Columns returns the nil slice, which
is empty; neither consults the released instance. -/
theorem Next_Columns_after_Close (env : Env) (ri : mysqlRowsI) (w : World) :
    (mysqlRowsI.Close env ri w).ri.mysqlRows = none ∧
    ∀ (dest : List Value) (later : World),
      mysqlRows.Next env (mysqlRowsI.Close env ri w).ri.mysqlRows dest later
        = ⟨errInvalidConn, none, dest, later⟩ ∧
      (callsDuring later
        (mysqlRows.Next env (mysqlRowsI.Close env ri w).ri.mysqlRows dest later).world).countP
          Event.isDecoder = 0 ∧
      ∃ s, mysqlRows.Columns (mysqlRowsI.Close env ri w).ri.mysqlRows later = Except.ok s ∧
        s.len = 0 := by
  have h : (mysqlRowsI.Close env ri w).ri.mysqlRows = none := by
    cases ri with
    | mk p => cases p <;> rfl
  rw [h]
  refine ⟨rfl, fun dest later => ⟨rfl, ?_, none, rfl, rfl⟩⟩
  simp [mysqlRows.Next, callsDuring]

end mysql
